import Mathlib

/-!
Verification of the streaming technical-analysis indicators of `ta-rs`
(`ta_panther`): the window extremum trackers `HighestHighValue` and
`LowestLowValue` (circular buffer with ±infinity sentinels), the edge
detectors `CrossAbove` and `CrossBelow`, and the one-step-ahead
`LinearRegressionPrediction` forecaster.

Real-valued samples are embedded as rationals (`ℚ`); the extremum
trackers' buffers hold `WithBot ℚ` (resp. `WithTop ℚ`) so that the
`f64::NEG_INFINITY` (resp. `f64::INFINITY`) sentinel slots are
represented faithfully. Fallible constructors return `Except TaError`,
mirroring `Result<Self>`. Each `next` returns the output paired with the
updated state.
-/

namespace TaRs

/-- The error enum of `src/errors.rs`. -/
inductive TaError where
  | InvalidParameter
  | DataItemIncomplete
  | DataItemInvalid
deriving DecidableEq, Repr

/-- The last `n` elements of a list (all of it when `n ≥ l.length`). -/
def lastN (n : ℕ) (l : List α) : List α := l.drop (l.length - n)

/-- Spec-side maximum of a list of samples, `⊥` on the empty list. -/
def listMax : List ℚ → WithBot ℚ
  | [] => ⊥
  | a :: l => max (↑a) (listMax l)

/-- Spec-side minimum of a list of samples, `⊤` on the empty list. -/
def listMin : List ℚ → WithTop ℚ
  | [] => ⊤
  | a :: l => min (↑a) (listMin l)

/-! ## Window extremum trackers (`highest_high_value.rs`, `lowest_low_value.rs`) -/

/-- State of the Highest High Value indicator: `period`, write cursor
`index`, saturating fill counter `count`, and the fixed-capacity circular
buffer `deque` seeded with the `-∞` sentinel. -/
structure HighestHighValue where
  period : ℕ
  index : ℕ
  count : ℕ
  deque : List (WithBot ℚ)
deriving DecidableEq, Repr

/-- `HighestHighValue::new`: rejects `period = 0`, otherwise allocates a
buffer of `period` copies of the `-∞` sentinel. -/
def HighestHighValue.new (period : ℕ) : Except TaError HighestHighValue :=
  match period with
  | 0 => .error TaError.InvalidParameter
  | _ => .ok { period := period, index := 0, count := 0,
               deque := List.replicate period ⊥ }

/-- `HighestHighValue::next`: write the sample at the cursor, advance the
cursor modulo `period`, bump the saturating fill counter, then fold `max`
over the first `count` slots starting from `-∞`. -/
def HighestHighValue.next (s : HighestHighValue) (input : ℚ) :
    WithBot ℚ × HighestHighValue :=
  let deque := s.deque.set s.index (↑input)
  let index := if s.index + 1 < s.period then s.index + 1 else 0
  let count := if s.count < s.period then s.count + 1 else s.count
  ((deque.take count).foldl max ⊥,
   { s with deque := deque, index := index, count := count })

/-- `HighestHighValue::next` with the slot write bounds-checked: `none`
models the panic of `self.deque[self.index] = input` when the cursor is
out of bounds. -/
def HighestHighValue.nextChecked (s : HighestHighValue) (input : ℚ) :
    Option (WithBot ℚ × HighestHighValue) :=
  if s.index < s.deque.length then some (s.next input) else none

/-- `Reset for HighestHighValue`: zero the cursor and counter and rewrite
slots `0..period` to the sentinel. -/
def HighestHighValue.reset (s : HighestHighValue) : HighestHighValue :=
  { s with index := 0, count := 0,
           deque := (List.range s.period).foldl (fun d i => d.set i ⊥) s.deque }

/-- Feed a list of samples one at a time, returning the final state. -/
def HighestHighValue.feed (s : HighestHighValue) (xs : List ℚ) : HighestHighValue :=
  xs.foldl (fun s x => (s.next x).2) s

/-- Output of the `(t+1)`-st call when feeding `xs` from state `s`. -/
def HighestHighValue.out (s : HighestHighValue) (xs : List ℚ) (t : ℕ) : WithBot ℚ :=
  ((s.feed (xs.take t)).next (xs.getD t 0)).1

/-- State of the Lowest Low Value indicator; the buffer is seeded with the
`+∞` sentinel. -/
structure LowestLowValue where
  period : ℕ
  index : ℕ
  count : ℕ
  deque : List (WithTop ℚ)
deriving DecidableEq, Repr

/-- `LowestLowValue::new`: rejects `period = 0`, otherwise allocates a
buffer of `period` copies of the `+∞` sentinel. -/
def LowestLowValue.new (period : ℕ) : Except TaError LowestLowValue :=
  match period with
  | 0 => .error TaError.InvalidParameter
  | _ => .ok { period := period, index := 0, count := 0,
               deque := List.replicate period ⊤ }

/-- `LowestLowValue::next`: write, advance cursor, bump counter, fold
`min` over the first `count` slots starting from `+∞`. -/
def LowestLowValue.next (s : LowestLowValue) (input : ℚ) :
    WithTop ℚ × LowestLowValue :=
  let deque := s.deque.set s.index (↑input)
  let index := if s.index + 1 < s.period then s.index + 1 else 0
  let count := if s.count < s.period then s.count + 1 else s.count
  ((deque.take count).foldl min ⊤,
   { s with deque := deque, index := index, count := count })

/-- `LowestLowValue::next` with the slot write bounds-checked. -/
def LowestLowValue.nextChecked (s : LowestLowValue) (input : ℚ) :
    Option (WithTop ℚ × LowestLowValue) :=
  if s.index < s.deque.length then some (s.next input) else none

/-- `Reset for LowestLowValue`. -/
def LowestLowValue.reset (s : LowestLowValue) : LowestLowValue :=
  { s with index := 0, count := 0,
           deque := (List.range s.period).foldl (fun d i => d.set i ⊤) s.deque }

/-- Feed a list of samples one at a time, returning the final state. -/
def LowestLowValue.feed (s : LowestLowValue) (xs : List ℚ) : LowestLowValue :=
  xs.foldl (fun s x => (s.next x).2) s

/-- Output of the `(t+1)`-st call when feeding `xs` from state `s`. -/
def LowestLowValue.out (s : LowestLowValue) (xs : List ℚ) (t : ℕ) : WithTop ℚ :=
  ((s.feed (xs.take t)).next (xs.getD t 0)).1

/-! ## Edge detectors (`cross_above.rs`, `cross_below.rs`) -/

/-- State of the Cross Above detector: fixed `threshold` and a queue of
at most the two most recent samples (oldest first). -/
structure CrossAbove where
  threshold : ℚ
  deque : List ℚ
deriving DecidableEq, Repr

/-- `CrossAbove::new`: always succeeds with an empty queue. -/
def CrossAbove.new (threshold : ℚ) : Except TaError CrossAbove :=
  .ok { threshold := threshold, deque := [] }

/-- The `while deque.len() > 2 { deque.pop_front(); }` loop of
`CrossAbove::from_state`. -/
def popToTwo : List ℚ → List ℚ
  | _ :: b :: c :: rest => popToTwo (b :: c :: rest)
  | l => l

/-- `CrossAbove::from_state`: truncate an oversized persisted queue from
the front down to two entries, then always succeed. -/
def CrossAbove.from_state (threshold : ℚ) (deque : List ℚ) :
    Except TaError CrossAbove :=
  .ok { threshold := threshold, deque := popToTwo deque }

/-- `CrossAbove::next`: evict the oldest sample when the queue is full,
push the new one; with fewer than two samples return `false`, otherwise
fire iff `prev <= threshold && curr > threshold`. -/
def CrossAbove.next (s : CrossAbove) (input : ℚ) : Bool × CrossAbove :=
  let deque0 := if s.deque.length = 2 then s.deque.tail else s.deque
  let deque := deque0 ++ [input]
  if deque.length < 2 then
    (false, { s with deque := deque })
  else
    let prev := deque.getD 0 0
    let curr := deque.getD 1 0
    (decide (prev ≤ s.threshold) && decide (s.threshold < curr),
     { s with deque := deque })

/-- `CrossAbove::next` with the two queue reads bounds-checked: `none`
models a panicking `self.deque[i]` access. -/
def CrossAbove.nextChecked (s : CrossAbove) (input : ℚ) :
    Option (Bool × CrossAbove) :=
  let deque0 := if s.deque.length = 2 then s.deque.tail else s.deque
  let deque := deque0 ++ [input]
  if deque.length < 2 then
    some (false, { s with deque := deque })
  else
    (deque.get? 0).bind fun prev =>
      (deque.get? 1).map fun curr =>
        (decide (prev ≤ s.threshold) && decide (s.threshold < curr),
         { s with deque := deque })

/-- `State for CrossAbove` with the two queue reads bounds-checked:
`state()` reads `self.deque[0]` and `self.deque[1]` unconditionally, so
`none` models the panic on a queue shorter than two. -/
def CrossAbove.state (s : CrossAbove) : Option (ℚ × ℚ × ℚ) :=
  (s.deque.get? 0).bind fun v0 =>
    (s.deque.get? 1).map fun v1 => (s.threshold, v0, v1)

/-- `Reset for CrossAbove`: clear the queue. -/
def CrossAbove.reset (s : CrossAbove) : CrossAbove :=
  { s with deque := [] }

/-- Feed a list of samples one at a time, returning the final state. -/
def CrossAbove.feed (s : CrossAbove) (xs : List ℚ) : CrossAbove :=
  xs.foldl (fun s x => (s.next x).2) s

/-- Output of the `(t+1)`-st call when feeding `xs` from state `s`. -/
def CrossAbove.out (s : CrossAbove) (xs : List ℚ) (t : ℕ) : Bool :=
  ((s.feed (xs.take t)).next (xs.getD t 0)).1

/-- State of the Cross Below detector. -/
structure CrossBelow where
  threshold : ℚ
  deque : List ℚ
deriving DecidableEq, Repr

/-- `CrossBelow::new`: always succeeds with an empty queue. -/
def CrossBelow.new (threshold : ℚ) : Except TaError CrossBelow :=
  .ok { threshold := threshold, deque := [] }

/-- `CrossBelow::next`: as `CrossAbove::next` but fires iff
`prev >= threshold && curr < threshold`. -/
def CrossBelow.next (s : CrossBelow) (input : ℚ) : Bool × CrossBelow :=
  let deque0 := if s.deque.length = 2 then s.deque.tail else s.deque
  let deque := deque0 ++ [input]
  if deque.length < 2 then
    (false, { s with deque := deque })
  else
    let prev := deque.getD 0 0
    let curr := deque.getD 1 0
    (decide (s.threshold ≤ prev) && decide (curr < s.threshold),
     { s with deque := deque })

/-- `CrossBelow::next` with the two queue reads bounds-checked: `none`
models a panicking `self.deque[i]` access. -/
def CrossBelow.nextChecked (s : CrossBelow) (input : ℚ) :
    Option (Bool × CrossBelow) :=
  let deque0 := if s.deque.length = 2 then s.deque.tail else s.deque
  let deque := deque0 ++ [input]
  if deque.length < 2 then
    some (false, { s with deque := deque })
  else
    (deque.get? 0).bind fun prev =>
      (deque.get? 1).map fun curr =>
        (decide (s.threshold ≤ prev) && decide (curr < s.threshold),
         { s with deque := deque })

/-- `Reset for CrossBelow`: clear the queue. -/
def CrossBelow.reset (s : CrossBelow) : CrossBelow :=
  { s with deque := [] }

/-- Feed a list of samples one at a time, returning the final state. -/
def CrossBelow.feed (s : CrossBelow) (xs : List ℚ) : CrossBelow :=
  xs.foldl (fun s x => (s.next x).2) s

/-- Output of the `(t+1)`-st call when feeding `xs` from state `s`. -/
def CrossBelow.out (s : CrossBelow) (xs : List ℚ) (t : ℕ) : Bool :=
  ((s.feed (xs.take t)).next (xs.getD t 0)).1

/-! ## Regression forecaster (`linear_regression_prediction.rs`) -/

/-- State of the Linear Regression Prediction indicator: nominal
`period`, FIFO sample queue `deque`, and the regressor positions `x` and
their mean `mean_x`, both precomputed at construction. -/
structure LinearRegressionPrediction where
  period : ℕ
  deque : List ℚ
  x : List ℚ
  mean_x : ℚ
deriving DecidableEq, Repr

/-- `LinearRegressionPrediction::new`: rejects `period = 0`; precomputes
`x = [1, …, period]` and `mean_x = (period + 1) / 2`. -/
def LinearRegressionPrediction.new (period : ℕ) :
    Except TaError LinearRegressionPrediction :=
  if period = 0 then .error TaError.InvalidParameter
  else .ok { period := period, deque := [],
             x := (List.range period).map (fun (i : ℕ) => ((i : ℚ) + 1)),
             mean_x := ((period : ℚ) + 1) / 2 }

/-- `LinearRegressionPrediction::next`: FIFO-push the sample (evicting
the oldest when the queue holds `period`), then regress the held samples
against the first positions of `x` (the `zip` stops at the shorter list)
and extrapolate one step past the current window length. -/
def LinearRegressionPrediction.next (s : LinearRegressionPrediction)
    (input : ℚ) : ℚ × LinearRegressionPrediction :=
  let deque0 := if s.deque.length = s.period then s.deque.tail else s.deque
  let deque := deque0 ++ [input]
  let slice := deque
  if slice.isEmpty then (0, { s with deque := deque })
  else
    let n : ℚ := (slice.length : ℚ)
    let mean_y := slice.sum / n
    let cv := (s.x.zip slice).foldl
      (fun acc q =>
        (acc.1 + (q.1 - s.mean_x) * (q.2 - mean_y),
         acc.2 + (q.1 - s.mean_x) ^ 2))
      (0, 0)
    let slope := if cv.2 ≠ 0 then cv.1 / cv.2 else 0
    let intercept := mean_y - slope * s.mean_x
    (slope * (n + 1) + intercept, { s with deque := deque })

/-- `Reset for LinearRegressionPrediction`: clear the sample queue only;
the precomputed regressor moments are retained. -/
def LinearRegressionPrediction.reset (s : LinearRegressionPrediction) :
    LinearRegressionPrediction :=
  { s with deque := [] }

/-- Feed a list of samples one at a time, returning the final state. -/
def LinearRegressionPrediction.feed (s : LinearRegressionPrediction)
    (xs : List ℚ) : LinearRegressionPrediction :=
  xs.foldl (fun s x => (s.next x).2) s

/-- Output of the `(t+1)`-st call when feeding `xs` from state `s`. -/
def LinearRegressionPrediction.out (s : LinearRegressionPrediction)
    (xs : List ℚ) (t : ℕ) : ℚ :=
  ((s.feed (xs.take t)).next (xs.getD t 0)).1

/-- The regression formula as the specification states it: `n` held
samples `ys` are paired with regressor positions `1, …, n`;
`mean_x = (p+1)/2`; `slope = cov_xy / var_x` unless `var_x = 0`, in which
case `0`; the output extrapolates to position `n + 1`. -/
def lrpSpec (p : ℕ) (ys : List ℚ) : ℚ :=
  let n : ℚ := (ys.length : ℚ)
  let mean_x : ℚ := ((p : ℚ) + 1) / 2
  let mean_y := ys.sum / n
  let cov_xy := ∑ i ∈ Finset.range ys.length,
    (((i : ℚ) + 1) - mean_x) * (ys.getD i 0 - mean_y)
  let var_x := ∑ i ∈ Finset.range ys.length, (((i : ℚ) + 1) - mean_x) ^ 2
  let slope := if var_x ≠ 0 then cov_xy / var_x else 0
  let intercept := mean_y - slope * mean_x
  slope * (n + 1) + intercept

/-- Invariant of the circular buffer shared by the two extremum
trackers: the buffer has length `p`, the counter and cursor are as after
`inp.length` writes, and the filled prefix is a rotation of the last
`cnt` inputs. -/
def cbInv {α : Type} (p : ℕ) (inp : List α) (idx cnt : ℕ) (dq : List α) : Prop :=
  dq.length = p ∧ cnt = min p inp.length ∧ idx = inp.length % p ∧
  dq.take cnt =
    (lastN cnt inp).drop (cnt - idx) ++ (lastN cnt inp).take (cnt - idx)

/-- Invariant of a `HighestHighValue` state after the samples `inp` have
been fed since construction (or the last reset). -/
def HighestHighValue.Inv (p : ℕ) (inp : List ℚ) (s : HighestHighValue) : Prop :=
  s.period = p ∧
  cbInv p (inp.map WithBot.some) s.index s.count s.deque

/-- Invariant of a `LowestLowValue` state after the samples `inp` have
been fed since construction (or the last reset). -/
def LowestLowValue.Inv (p : ℕ) (inp : List ℚ) (s : LowestLowValue) : Prop :=
  s.period = p ∧
  cbInv p (inp.map WithTop.some) s.index s.count s.deque

/-! ## Generic fold and circular-buffer lemmas -/

/-- Folding a commutative, associative operation with identity `e` from
an arbitrary seed factors the seed out. -/
lemma foldl_op_eq {α : Type} (f : α → α → α) (e : α)
    (hc : ∀ a b, f a b = f b a) (ha : ∀ a b c, f (f a b) c = f a (f b c))
    (he : ∀ a, f e a = a) :
    ∀ (l : List α) (b : α), l.foldl f b = f b (l.foldl f e) := by
  intro l
  induction l with
  | nil => intro b; rw [List.foldl_nil, List.foldl_nil, hc, he]
  | cons a l ih =>
    intro b
    rw [List.foldl_cons, List.foldl_cons, ih (f b a), ih (f e a), he, ha]

/-- Folding a commutative, associative operation with identity over a
rotated list gives the same result. -/
lemma foldl_op_rotate {α : Type} (f : α → α → α) (e : α)
    (hc : ∀ a b, f a b = f b a) (ha : ∀ a b c, f (f a b) c = f a (f b c))
    (he : ∀ a, f e a = a) (A B : List α) :
    (A ++ B).foldl f e = (B ++ A).foldl f e := by
  rw [List.foldl_append, List.foldl_append,
    foldl_op_eq f e hc ha he B (A.foldl f e),
    foldl_op_eq f e hc ha he A (B.foldl f e), hc]

lemma lastN_length {α : Type} (n : ℕ) (l : List α) :
    (lastN n l).length = min n l.length := by
  simp only [lastN, List.length_drop]
  omega

lemma lastN_all {α : Type} {n : ℕ} {l : List α} (h : l.length ≤ n) :
    lastN n l = l := by
  simp only [lastN, Nat.sub_eq_zero_of_le h, List.drop_zero]

lemma lastN_map {α β : Type} (f : α → β) (n : ℕ) (l : List α) :
    lastN n (l.map f) = (lastN n l).map f := by
  simp [lastN]

/-- Successor of a residue modulo `p`, in the branch form the indicator
uses for its cursor. -/
lemma mod_succ_eq (t : ℕ) {p : ℕ} (hp : 0 < p) :
    (t + 1) % p = if t % p + 1 < p then t % p + 1 else 0 := by
  rcases Nat.lt_or_ge 1 p with h2 | h2
  · rw [Nat.add_mod, Nat.mod_eq_of_lt h2]
    split
    · next h1 => exact Nat.mod_eq_of_lt h1
    · next h1 =>
      have hlt := Nat.mod_lt t hp
      have hq : t % p + 1 = p := by omega
      rw [hq, Nat.mod_self]
  · have hp1 : p = 1 := by omega
    subst hp1
    simp [Nat.mod_one]

lemma cbInv_nil {α : Type} (p : ℕ) (e : α) :
    cbInv p [] 0 0 (List.replicate p e) := by
  refine ⟨List.length_replicate _ _, ?_, ?_, ?_⟩ <;> simp [lastN]

/-- One `next` call preserves the circular-buffer invariant: write at
the cursor, advance the cursor with wraparound, saturate the counter. -/
lemma cbInv_step {α : Type} {p : ℕ} (hp : 0 < p) {inp : List α}
    {idx cnt : ℕ} {dq : List α} (h : cbInv p inp idx cnt dq) (v : α) :
    cbInv p (inp ++ [v]) (if idx + 1 < p then idx + 1 else 0)
      (if cnt < p then cnt + 1 else cnt) (dq.set idx v) := by
  obtain ⟨hlen, hcnt, hidx, hrot⟩ := h
  have hlen' : (dq.set idx v).length = p := by
    rw [List.length_set]; exact hlen
  have hlinp : (inp ++ [v]).length = inp.length + 1 := by simp
  rcases Nat.lt_or_ge inp.length p with htp | htp
  · -- window still filling: the cursor sits right after the filled prefix
    have hidx' : idx = inp.length := by rw [hidx, Nat.mod_eq_of_lt htp]
    have hcnt' : cnt = inp.length := by rw [hcnt]; omega
    have hrot' : dq.take inp.length = inp := by
      rw [hcnt', hidx'] at hrot
      rw [hrot, Nat.sub_self, List.drop_zero, List.take_zero,
        List.append_nil, lastN_all (le_refl _)]
    have hcond : cnt < p := by omega
    refine ⟨hlen', ?_, ?_, ?_⟩
    · rw [if_pos hcond, hlinp]; omega
    · rw [hlinp, mod_succ_eq _ hp, ← hidx]
    · rw [if_pos hcond, hcnt', hidx']
      have hset : (dq.set inp.length v).take (inp.length + 1)
          = inp ++ [v] := by
        rw [List.set_eq_take_cons_drop v (by omega)]
        have h1 : (dq.take inp.length).length = inp.length := by
          rw [List.length_take]; omega
        rw [List.take_append_eq_append_take, h1, Nat.add_sub_cancel_left,
          List.take_take]
        have hmin : min (inp.length + 1) inp.length = inp.length := by omega
        rw [hmin, hrot']
        simp
      have hw : lastN (inp.length + 1) (inp ++ [v]) = inp ++ [v] :=
        lastN_all (by simp)
      rw [hset, hw]
      split
      · simp
      · rw [Nat.sub_zero, List.drop_of_length_le (by simp),
          List.take_of_length_le (by simp)]
        simp
  · -- window full: the write evicts the oldest element of the window
    have hcnt' : cnt = p := by rw [hcnt]; omega
    have hr : idx < p := by rw [hidx]; exact Nat.mod_lt _ hp
    set t := inp.length with hts
    set w : List α := lastN p inp with hws
    have hwlen : w.length = p := by rw [hws, lastN_length]; omega
    have hdq : dq = w.drop (p - idx) ++ w.take (p - idx) := by
      rw [hcnt'] at hrot
      rw [← hrot, ← hlen, List.take_length]
    have hfirstlen : (w.drop (p - idx)).length = idx := by
      rw [List.length_drop, hwlen]; omega
    have hk1 : 1 ≤ p - idx := by omega
    -- the slot being overwritten is the head of `w.take (p - idx)`
    have hset : dq.set idx v
        = w.drop (p - idx) ++ v :: (w.drop 1).take (p - idx - 1) := by
      rw [hdq, List.set_append_right _ _ hfirstlen.le, hfirstlen,
        Nat.sub_self]
      congr 1
      have htk : 0 < (w.take (p - idx)).length := by
        rw [List.length_take]; omega
      rw [List.set_eq_take_cons_drop v htk, List.take_zero, List.nil_append,
        Nat.zero_add, List.drop_take]
    have hta : t + 1 - p ≤ inp.length := by omega
    have hw' : lastN p (inp ++ [v]) = w.drop 1 ++ [v] := by
      rw [hws]
      show (inp ++ [v]).drop ((inp ++ [v]).length - p)
          = (inp.drop (inp.length - p)).drop 1 ++ [v]
      rw [hlinp, ← hts, List.drop_append_of_le_length hta, List.drop_drop,
        (by omega : t + 1 - p = t - p + 1)]
    have hwdlen : (w.drop 1).length = p - 1 := by
      rw [List.length_drop, hwlen]
    refine ⟨hlen', ?_, ?_, ?_⟩
    · rw [if_neg (by omega), hlinp, hcnt']; omega
    · rw [hlinp, mod_succ_eq _ hp, ← hidx]
    · rw [if_neg (by omega), hcnt']
      have htake : (dq.set idx v).take p = dq.set idx v := by
        rw [← hlen', List.take_length]
      rw [htake, hset, hw']
      split
      · next hcond =>
        have hd1 : p - (idx + 1) ≤ (w.drop 1).length := by
          rw [hwdlen]; omega
        rw [List.drop_append_of_le_length hd1,
          List.take_append_of_le_length hd1, List.drop_drop,
          (by omega : 1 + (p - (idx + 1)) = p - idx),
          (by omega : p - (idx + 1) = p - idx - 1),
          List.append_assoc, List.singleton_append]
      · next hcond =>
        have hpk : p - idx = 1 := by omega
        have hlw : (w.drop 1 ++ [v]).length = p := by
          rw [List.length_append, hwdlen, List.length_cons, List.length_nil]
          omega
        rw [Nat.sub_zero, hpk, List.drop_of_length_le hlw.le,
          List.take_of_length_le hlw.le, List.nil_append, Nat.sub_self,
          List.take_zero]

/-! ## Invariants and output characterisation for the extremum trackers -/

lemma foldl_max_coe (l : List ℚ) :
    ((l.map WithBot.some).foldl max ⊥) = listMax l := by
  induction l with
  | nil => rfl
  | cons a l ih =>
    rw [List.map_cons, List.foldl_cons,
      foldl_op_eq max ⊥ max_comm max_assoc (fun a => max_eq_right bot_le) _ _,
      ih, listMax, max_eq_right bot_le]

lemma foldl_min_coe (l : List ℚ) :
    ((l.map WithTop.some).foldl min ⊤) = listMin l := by
  induction l with
  | nil => rfl
  | cons a l ih =>
    rw [List.map_cons, List.foldl_cons,
      foldl_op_eq min ⊤ min_comm min_assoc (fun a => min_eq_right le_top) _ _,
      ih, listMin, min_eq_right le_top]

lemma listMax_ne_bot {l : List ℚ} (h : l ≠ []) : listMax l ≠ ⊥ := by
  match l with
  | a :: l =>
    intro hbot
    have h1 : (a : WithBot ℚ) ≤ listMax (a :: l) := by
      rw [listMax]; exact le_max_left _ _
    rw [hbot] at h1
    exact WithBot.coe_ne_bot (le_bot_iff.mp h1)

lemma listMin_ne_top {l : List ℚ} (h : l ≠ []) : listMin l ≠ ⊤ := by
  match l with
  | a :: l =>
    intro htop
    have h1 : listMin (a :: l) ≤ (a : WithTop ℚ) := by
      rw [listMin]; exact min_le_left _ _
    rw [htop] at h1
    exact WithTop.coe_ne_top (top_le_iff.mp h1)

lemma hhv_new_eq {p : ℕ} (hp : 0 < p) :
    HighestHighValue.new p
      = .ok ⟨p, 0, 0, List.replicate p ⊥⟩ := by
  match p, hp with
  | n + 1, _ => rfl

lemma llv_new_eq {p : ℕ} (hp : 0 < p) :
    LowestLowValue.new p
      = .ok ⟨p, 0, 0, List.replicate p ⊤⟩ := by
  match p, hp with
  | n + 1, _ => rfl

lemma hhv_inv_new {p : ℕ} {s : HighestHighValue}
    (hp : 0 < p) (h : HighestHighValue.new p = .ok s) :
    HighestHighValue.Inv p [] s := by
  rw [hhv_new_eq hp] at h
  cases h
  exact ⟨rfl, cbInv_nil p ⊥⟩

lemma llv_inv_new {p : ℕ} {s : LowestLowValue}
    (hp : 0 < p) (h : LowestLowValue.new p = .ok s) :
    LowestLowValue.Inv p [] s := by
  rw [llv_new_eq hp] at h
  cases h
  exact ⟨rfl, cbInv_nil p ⊤⟩

lemma hhv_inv_next {p : ℕ} {inp : List ℚ} {s : HighestHighValue}
    (hp : 0 < p) (h : s.Inv p inp) (a : ℚ) :
    (s.next a).2.Inv p (inp ++ [a]) := by
  obtain ⟨hper, hcb⟩ := h
  refine ⟨hper, ?_⟩
  have hstep := cbInv_step hp hcb (WithBot.some a)
  have hmap : List.map WithBot.some (inp ++ [a])
      = List.map WithBot.some inp ++ [WithBot.some a] := by simp
  rw [hmap]
  simpa [HighestHighValue.next, hper] using hstep

lemma llv_inv_next {p : ℕ} {inp : List ℚ} {s : LowestLowValue}
    (hp : 0 < p) (h : s.Inv p inp) (a : ℚ) :
    (s.next a).2.Inv p (inp ++ [a]) := by
  obtain ⟨hper, hcb⟩ := h
  refine ⟨hper, ?_⟩
  have hstep := cbInv_step hp hcb (WithTop.some a)
  have hmap : List.map WithTop.some (inp ++ [a])
      = List.map WithTop.some inp ++ [WithTop.some a] := by simp
  rw [hmap]
  simpa [LowestLowValue.next, hper] using hstep

lemma hhv_inv_feed {p : ℕ} (hp : 0 < p) :
    ∀ (xs : List ℚ) {pre : List ℚ} {s : HighestHighValue},
      s.Inv p pre → (s.feed xs).Inv p (pre ++ xs) := by
  intro xs
  induction xs with
  | nil => intro pre s h; simpa [HighestHighValue.feed] using h
  | cons x xs ih =>
    intro pre s h
    have h1 := hhv_inv_next hp h x
    have h2 := ih h1
    simpa [HighestHighValue.feed, List.append_assoc] using h2

lemma llv_inv_feed {p : ℕ} (hp : 0 < p) :
    ∀ (xs : List ℚ) {pre : List ℚ} {s : LowestLowValue},
      s.Inv p pre → (s.feed xs).Inv p (pre ++ xs) := by
  intro xs
  induction xs with
  | nil => intro pre s h; simpa [LowestLowValue.feed] using h
  | cons x xs ih =>
    intro pre s h
    have h1 := llv_inv_next hp h x
    have h2 := ih h1
    simpa [LowestLowValue.feed, List.append_assoc] using h2

lemma hhv_next_out {p : ℕ} {inp : List ℚ} {s : HighestHighValue}
    (hp : 0 < p) (h : s.Inv p inp) (a : ℚ) :
    (s.next a).1 = listMax (lastN (min p (inp.length + 1)) (inp ++ [a])) := by
  obtain ⟨hper, hcb⟩ := h
  have hstep := cbInv_step hp hcb (WithBot.some a)
  have hmap : List.map WithBot.some inp ++ [WithBot.some a]
      = List.map WithBot.some (inp ++ [a]) := by simp
  rw [hmap] at hstep
  obtain ⟨hlen', hcnt', hidx', hrot'⟩ := hstep
  have hout : (s.next a).1
      = ((s.deque.set s.index (WithBot.some a)).take
          (if s.count < s.period then s.count + 1 else s.count)).foldl max ⊥ := rfl
  rw [hout, hper, hrot',
    foldl_op_rotate max ⊥ max_comm max_assoc (fun a => max_eq_right bot_le) _ _,
    List.take_append_drop, hcnt', lastN_map, foldl_max_coe]
  congr 2
  simp

lemma llv_next_out {p : ℕ} {inp : List ℚ} {s : LowestLowValue}
    (hp : 0 < p) (h : s.Inv p inp) (a : ℚ) :
    (s.next a).1 = listMin (lastN (min p (inp.length + 1)) (inp ++ [a])) := by
  obtain ⟨hper, hcb⟩ := h
  have hstep := cbInv_step hp hcb (WithTop.some a)
  have hmap : List.map WithTop.some inp ++ [WithTop.some a]
      = List.map WithTop.some (inp ++ [a]) := by simp
  rw [hmap] at hstep
  obtain ⟨hlen', hcnt', hidx', hrot'⟩ := hstep
  have hout : (s.next a).1
      = ((s.deque.set s.index (WithTop.some a)).take
          (if s.count < s.period then s.count + 1 else s.count)).foldl min ⊤ := rfl
  rw [hout, hper, hrot',
    foldl_op_rotate min ⊤ min_comm min_assoc (fun a => min_eq_right le_top) _ _,
    List.take_append_drop, hcnt', lastN_map, foldl_min_coe]
  congr 2
  simp

/-! ## Reset and bookkeeping lemmas -/

/-- The `for i in 0..n` sentinel-rewriting loop of `reset` turns the
first `n` slots into the sentinel. -/
lemma foldl_range_set {α : Type} (e : α) :
    ∀ (n : ℕ) (d : List α),
      (List.range n).foldl (fun d i => d.set i e) d
        = List.replicate (min n d.length) e ++ d.drop n := by
  intro n
  induction n with
  | zero => intro d; simp
  | succ n ih =>
    intro d
    rw [List.range_succ, List.foldl_append, List.foldl_cons, List.foldl_nil,
      ih]
    rcases Nat.lt_or_ge n d.length with h | h
    · have hmin : min n d.length = n := by omega
      have hmin' : min (n + 1) d.length = n + 1 := by omega
      have hlenrep : (List.replicate n e).length = n := by simp
      rw [hmin, hmin', List.set_append_right _ _ (le_of_eq hlenrep),
        hlenrep, Nat.sub_self, List.drop_eq_getElem_cons h,
        List.set_cons_zero, List.replicate_succ' n e, List.append_assoc,
        List.singleton_append]
    · have hmin : min n d.length = d.length := by omega
      have hmin' : min (n + 1) d.length = d.length := by omega
      have hdrop : d.drop n = [] := List.drop_of_length_le h
      have hdrop' : d.drop (n + 1) = [] := List.drop_of_length_le (by omega)
      rw [hmin, hmin', hdrop, hdrop', List.append_nil,
        List.set_eq_of_length_le (by simp; omega)]

lemma hhv_reset_eq {s : HighestHighValue} (h : s.deque.length = s.period) :
    s.reset = ⟨s.period, 0, 0, List.replicate s.period ⊥⟩ := by
  show HighestHighValue.mk s.period 0 0
      ((List.range s.period).foldl (fun d i => d.set i ⊥) s.deque)
    = HighestHighValue.mk s.period 0 0 (List.replicate s.period ⊥)
  rw [foldl_range_set, h, min_self, List.drop_of_length_le h.le,
    List.append_nil]

lemma llv_reset_eq {s : LowestLowValue} (h : s.deque.length = s.period) :
    s.reset = ⟨s.period, 0, 0, List.replicate s.period ⊤⟩ := by
  show LowestLowValue.mk s.period 0 0
      ((List.range s.period).foldl (fun d i => d.set i ⊤) s.deque)
    = LowestLowValue.mk s.period 0 0 (List.replicate s.period ⊤)
  rw [foldl_range_set, h, min_self, List.drop_of_length_le h.le,
    List.append_nil]

lemma hhv_feed_fields :
    ∀ (xs : List ℚ) (s : HighestHighValue),
      (s.feed xs).period = s.period ∧
      (s.feed xs).deque.length = s.deque.length := by
  intro xs
  induction xs with
  | nil => intro s; exact ⟨rfl, rfl⟩
  | cons x xs ih =>
    intro s
    have h := ih (s.next x).2
    simpa [HighestHighValue.feed, HighestHighValue.next] using h

lemma llv_feed_fields :
    ∀ (xs : List ℚ) (s : LowestLowValue),
      (s.feed xs).period = s.period ∧
      (s.feed xs).deque.length = s.deque.length := by
  intro xs
  induction xs with
  | nil => intro s; exact ⟨rfl, rfl⟩
  | cons x xs ih =>
    intro s
    have h := ih (s.next x).2
    simpa [LowestLowValue.feed, LowestLowValue.next] using h

/-- Resetting any state reached from a fresh `HighestHighValue` returns
exactly the freshly constructed state. -/
lemma hhv_reset_feed {p : ℕ} {s0 : HighestHighValue} (hp : 0 < p)
    (h : HighestHighValue.new p = .ok s0) (xs : List ℚ) :
    (s0.feed xs).reset = s0 := by
  rw [hhv_new_eq hp] at h
  cases h
  obtain ⟨hper, hlen⟩ := hhv_feed_fields xs ⟨p, 0, 0, List.replicate p ⊥⟩
  rw [hhv_reset_eq (by rw [hlen, hper]; simp), hper]

/-- Resetting any state reached from a fresh `LowestLowValue` returns
exactly the freshly constructed state. -/
lemma llv_reset_feed {p : ℕ} {s0 : LowestLowValue} (hp : 0 < p)
    (h : LowestLowValue.new p = .ok s0) (xs : List ℚ) :
    (s0.feed xs).reset = s0 := by
  rw [llv_new_eq hp] at h
  cases h
  obtain ⟨hper, hlen⟩ := llv_feed_fields xs ⟨p, 0, 0, List.replicate p ⊤⟩
  rw [llv_reset_eq (by rw [hlen, hper]; simp), hper]

/-! ## Edge-detector characterisation -/

lemma ca_next_state (s : CrossAbove) (a : ℚ) :
    (s.next a).2 = CrossAbove.mk s.threshold
      ((if s.deque.length = 2 then s.deque.tail else s.deque) ++ [a]) := by
  simp only [CrossAbove.next]
  split <;> split <;> rfl

lemma cb_next_state (s : CrossBelow) (a : ℚ) :
    (s.next a).2 = CrossBelow.mk s.threshold
      ((if s.deque.length = 2 then s.deque.tail else s.deque) ++ [a]) := by
  simp only [CrossBelow.next]
  split <;> split <;> rfl

lemma lastN_two_step (xs : List ℚ) (a : ℚ) :
    (if (lastN 2 xs).length = 2 then (lastN 2 xs).tail else lastN 2 xs)
        ++ [a] = lastN 2 (xs ++ [a]) := by
  have hll : (lastN 2 xs).length = min 2 xs.length := lastN_length 2 xs
  rcases Nat.lt_or_ge xs.length 2 with h | h
  · rw [if_neg (by omega), lastN_all (by omega), lastN_all (by simp; omega)]
  · rw [if_pos (by omega)]
    have hl2 : (xs ++ [a]).length - 2 = xs.length - 1 := by
      simp only [List.length_append, List.length_cons, List.length_nil]
      omega
    have h1 : lastN 2 (xs ++ [a]) = xs.drop (xs.length - 1) ++ [a] := by
      simp only [lastN]
      rw [hl2, List.drop_append_of_le_length (by omega)]
    rw [h1, ← List.drop_one]
    simp only [lastN]
    rw [List.drop_drop, (by omega : xs.length - 2 + 1 = xs.length - 1)]

/-- Feeding a fresh `CrossAbove` keeps exactly the last two samples. -/
lemma ca_fresh_feed (b : ℚ) :
    ∀ (xs : List ℚ), (CrossAbove.mk b []).feed xs
      = CrossAbove.mk b (lastN 2 xs) := by
  intro xs
  induction xs using List.reverseRecOn with
  | nil => rfl
  | append_singleton xs a ih =>
    rw [CrossAbove.feed, List.foldl_append, List.foldl_cons, List.foldl_nil,
      ← CrossAbove.feed, ih, ca_next_state, lastN_two_step]

/-- Feeding a fresh `CrossBelow` keeps exactly the last two samples. -/
lemma cb_fresh_feed (b : ℚ) :
    ∀ (xs : List ℚ), (CrossBelow.mk b []).feed xs
      = CrossBelow.mk b (lastN 2 xs) := by
  intro xs
  induction xs using List.reverseRecOn with
  | nil => rfl
  | append_singleton xs a ih =>
    rw [CrossBelow.feed, List.foldl_append, List.foldl_cons, List.foldl_nil,
      ← CrossBelow.feed, ih, cb_next_state, lastN_two_step]

lemma take_one_eq {xs : List ℚ} (h : 1 ≤ xs.length) :
    xs.take 1 = [xs.getD 0 0] := by
  have h0 : 0 < xs.length := h
  rw [show (1 : ℕ) = 0 + 1 from rfl, List.take_succ,
    List.getElem?_eq_getElem h0, List.getD_eq_getElem _ _ h0]
  rfl

lemma lastN_two_take {xs : List ℚ} {j : ℕ} (h : j + 2 ≤ xs.length) :
    lastN 2 (xs.take (j + 2)) = [xs.getD j 0, xs.getD (j + 1) 0] := by
  have h1 : (xs.take (j + 2)).length = j + 2 := by
    rw [List.length_take]; omega
  simp only [lastN, h1]
  rw [(by omega : j + 2 - 2 = j), List.drop_take,
    (by omega : j + 2 - j = 2),
    List.drop_eq_getElem_cons (by omega : j < xs.length),
    List.getD_eq_getElem _ _ (by omega : j < xs.length)]
  rw [List.drop_eq_getElem_cons (by omega : j + 1 < xs.length),
    List.getD_eq_getElem _ _ (by omega : j + 1 < xs.length)]
  rfl

/-! ## Claim theorems -/

/-- C1: for every period `p ≥ 1` and every input sequence, the windowed
extremum trackers `HighestHighValue` and `LowestLowValue` return at each
step `t+1` the exact maximum (resp. minimum) of the last `min(p, t+1)`
inputs, and the ±infinity sentinel slots never leak into the output
while the window is still filling (the output is never `⊥`/`⊤`). -/
theorem hhv_llv_window_extremum (p : ℕ) (hp : 1 ≤ p) (xs : List ℚ) (t : ℕ)
    (ht : t < xs.length)
    (sH : HighestHighValue) (hH : HighestHighValue.new p = .ok sH)
    (sL : LowestLowValue) (hL : LowestLowValue.new p = .ok sL) :
    sH.out xs t = listMax (lastN (min p (t + 1)) (xs.take (t + 1))) ∧
    sH.out xs t ≠ ⊥ ∧
    sL.out xs t = listMin (lastN (min p (t + 1)) (xs.take (t + 1))) ∧
    sL.out xs t ≠ ⊤ := by
  have hp0 : 0 < p := hp
  have hlen_take : (xs.take t).length = t := by
    rw [List.length_take]; omega
  have htake : xs.take t ++ [xs.getD t 0] = xs.take (t + 1) := by
    rw [List.take_succ, List.getElem?_eq_getElem ht,
      List.getD_eq_getElem _ _ ht]
    rfl
  have hne : lastN (min p (t + 1)) (xs.take (t + 1)) ≠ [] := by
    have hl := lastN_length (min p (t + 1)) (xs.take (t + 1))
    have hlt : (xs.take (t + 1)).length = t + 1 := by
      rw [List.length_take]; omega
    rw [hlt] at hl
    exact List.length_pos.mp (by rw [hl]; omega)
  have hinvH : (sH.feed (xs.take t)).Inv p (xs.take t) := by
    have h1 := hhv_inv_feed hp0 (xs.take t) (hhv_inv_new hp0 hH)
    simpa using h1
  have hinvL : (sL.feed (xs.take t)).Inv p (xs.take t) := by
    have h1 := llv_inv_feed hp0 (xs.take t) (llv_inv_new hp0 hL)
    simpa using h1
  have houtH := hhv_next_out hp0 hinvH (xs.getD t 0)
  have houtL := llv_next_out hp0 hinvL (xs.getD t 0)
  rw [hlen_take, htake] at houtH houtL
  refine ⟨houtH, ?_, houtL, ?_⟩
  · rw [HighestHighValue.out, houtH]
    exact listMax_ne_bot hne
  · rw [LowestLowValue.out, houtL]
    exact listMin_ne_top hne

/-- Closed witness for C1 at `p = 3`, `xs = [10, 12, 8, 13]`, `t = 2`. -/
theorem hhv_llv_window_extremum_witness :
    (HighestHighValue.mk 3 0 0 (List.replicate 3 ⊥)).out [10, 12, 8, 13] 2
        = listMax (lastN (min 3 3) ([10, 12, 8, 13].take 3)) ∧
    (HighestHighValue.mk 3 0 0 (List.replicate 3 ⊥)).out [10, 12, 8, 13] 2
        ≠ ⊥ ∧
    (LowestLowValue.mk 3 0 0 (List.replicate 3 ⊤)).out [10, 12, 8, 13] 2
        = listMin (lastN (min 3 3) ([10, 12, 8, 13].take 3)) ∧
    (LowestLowValue.mk 3 0 0 (List.replicate 3 ⊤)).out [10, 12, 8, 13] 2
        ≠ ⊤ :=
  hhv_llv_window_extremum 3 (by decide) [10, 12, 8, 13] 2 (by decide)
    _ rfl _ rfl

/-- C10: every operation of the extremum trackers preserves the data
invariant: the cursor stays strictly below `period`, the fill counter is
at most `period` and equals `min(period, samples since construction or
the last reset)`, and the buffer keeps length `period`, so all buffer
accesses and the `deque[..count]` slice stay in bounds. -/
theorem hhv_llv_invariants (p : ℕ) (hp : 1 ≤ p) (xs ys : List ℚ)
    (sH : HighestHighValue) (hH : HighestHighValue.new p = .ok sH)
    (sL : LowestLowValue) (hL : LowestLowValue.new p = .ok sL) :
    ((sH.feed xs).index < p ∧ (sH.feed xs).count ≤ p ∧
     (sH.feed xs).count = min p xs.length ∧
     (sH.feed xs).deque.length = p ∧ (sH.feed xs).period = p) ∧
    (((sH.feed xs).reset.feed ys).index < p ∧
     ((sH.feed xs).reset.feed ys).count = min p ys.length ∧
     ((sH.feed xs).reset.feed ys).deque.length = p) ∧
    ((sL.feed xs).index < p ∧ (sL.feed xs).count ≤ p ∧
     (sL.feed xs).count = min p xs.length ∧
     (sL.feed xs).deque.length = p ∧ (sL.feed xs).period = p) ∧
    (((sL.feed xs).reset.feed ys).index < p ∧
     ((sL.feed xs).reset.feed ys).count = min p ys.length ∧
     ((sL.feed xs).reset.feed ys).deque.length = p) := by
  have hp0 : 0 < p := hp
  have hfromInvH : ∀ (s : HighestHighValue) (l : List ℚ), s.Inv p l →
      s.index < p ∧ s.count ≤ p ∧ s.count = min p l.length ∧
      s.deque.length = p ∧ s.period = p := by
    intro s l h
    obtain ⟨hper, hlen, hcnt, hidx, _⟩ := h
    refine ⟨?_, ?_, ?_, hlen, hper⟩
    · rw [hidx]; exact Nat.mod_lt _ hp0
    · rw [hcnt]; omega
    · rw [hcnt, List.length_map]
  have hfromInvL : ∀ (s : LowestLowValue) (l : List ℚ), s.Inv p l →
      s.index < p ∧ s.count ≤ p ∧ s.count = min p l.length ∧
      s.deque.length = p ∧ s.period = p := by
    intro s l h
    obtain ⟨hper, hlen, hcnt, hidx, _⟩ := h
    refine ⟨?_, ?_, ?_, hlen, hper⟩
    · rw [hidx]; exact Nat.mod_lt _ hp0
    · rw [hcnt]; omega
    · rw [hcnt, List.length_map]
  have hIH : (sH.feed xs).Inv p xs := by
    simpa using hhv_inv_feed hp0 xs (hhv_inv_new hp0 hH)
  have hIL : (sL.feed xs).Inv p xs := by
    simpa using llv_inv_feed hp0 xs (llv_inv_new hp0 hL)
  have hresetH : (sH.feed xs).reset = sH := hhv_reset_feed hp0 hH xs
  have hresetL : (sL.feed xs).reset = sL := llv_reset_feed hp0 hL xs
  have hIH2 : ((sH.feed xs).reset.feed ys).Inv p ys := by
    rw [hresetH]
    simpa using hhv_inv_feed hp0 ys (hhv_inv_new hp0 hH)
  have hIL2 : ((sL.feed xs).reset.feed ys).Inv p ys := by
    rw [hresetL]
    simpa using llv_inv_feed hp0 ys (llv_inv_new hp0 hL)
  obtain ⟨a1, a2, a3, a4, a5⟩ := hfromInvH _ _ hIH
  obtain ⟨b1, b2, b3, b4, b5⟩ := hfromInvH _ _ hIH2
  obtain ⟨c1, c2, c3, c4, c5⟩ := hfromInvL _ _ hIL
  obtain ⟨d1, d2, d3, d4, d5⟩ := hfromInvL _ _ hIL2
  exact ⟨⟨a1, a2, a3, a4, a5⟩, ⟨b1, b3, b4⟩, ⟨c1, c2, c3, c4, c5⟩,
    ⟨d1, d3, d4⟩⟩

/-- Closed witness for C10 at `p = 2`, `xs = [5, 7, 9]`, `ys = [1]`. -/
theorem hhv_llv_invariants_witness :
    (((HighestHighValue.mk 2 0 0 (List.replicate 2 ⊥)).feed [5, 7, 9]).index
        < 2 ∧
     ((HighestHighValue.mk 2 0 0 (List.replicate 2 ⊥)).feed [5, 7, 9]).count
        ≤ 2 ∧
     ((HighestHighValue.mk 2 0 0 (List.replicate 2 ⊥)).feed [5, 7, 9]).count
        = min 2 ([5, 7, 9] : List ℚ).length ∧
     ((HighestHighValue.mk 2 0 0 (List.replicate 2 ⊥)).feed
        [5, 7, 9]).deque.length = 2 ∧
     ((HighestHighValue.mk 2 0 0 (List.replicate 2 ⊥)).feed [5, 7, 9]).period
        = 2) ∧
    ((((HighestHighValue.mk 2 0 0 (List.replicate 2 ⊥)).feed
        [5, 7, 9]).reset.feed [1]).index < 2 ∧
     (((HighestHighValue.mk 2 0 0 (List.replicate 2 ⊥)).feed
        [5, 7, 9]).reset.feed [1]).count = min 2 ([1] : List ℚ).length ∧
     (((HighestHighValue.mk 2 0 0 (List.replicate 2 ⊥)).feed
        [5, 7, 9]).reset.feed [1]).deque.length = 2) ∧
    (((LowestLowValue.mk 2 0 0 (List.replicate 2 ⊤)).feed [5, 7, 9]).index
        < 2 ∧
     ((LowestLowValue.mk 2 0 0 (List.replicate 2 ⊤)).feed [5, 7, 9]).count
        ≤ 2 ∧
     ((LowestLowValue.mk 2 0 0 (List.replicate 2 ⊤)).feed [5, 7, 9]).count
        = min 2 ([5, 7, 9] : List ℚ).length ∧
     ((LowestLowValue.mk 2 0 0 (List.replicate 2 ⊤)).feed
        [5, 7, 9]).deque.length = 2 ∧
     ((LowestLowValue.mk 2 0 0 (List.replicate 2 ⊤)).feed [5, 7, 9]).period
        = 2) ∧
    ((((LowestLowValue.mk 2 0 0 (List.replicate 2 ⊤)).feed
        [5, 7, 9]).reset.feed [1]).index < 2 ∧
     (((LowestLowValue.mk 2 0 0 (List.replicate 2 ⊤)).feed
        [5, 7, 9]).reset.feed [1]).count = min 2 ([1] : List ℚ).length ∧
     (((LowestLowValue.mk 2 0 0 (List.replicate 2 ⊤)).feed
        [5, 7, 9]).reset.feed [1]).deque.length = 2) :=
  hhv_llv_invariants 2 (by decide) [5, 7, 9] [1] _ rfl _ rfl

lemma popToTwo_eq : ∀ (l : List ℚ), popToTwo l = l.drop (l.length - 2)
  | [] => rfl
  | [_] => rfl
  | [_, _] => rfl
  | a :: b :: c :: rest => by
    simp only [popToTwo]
    rw [popToTwo_eq (b :: c :: rest)]
    simp only [List.length_cons]
    rw [(by omega :
        rest.length + 1 + 1 + 1 - 2 = rest.length + 1 + 1 - 2 + 1),
      List.drop_succ_cons]

lemma lrp_new_eq {p : ℕ} (hp : p ≠ 0) :
    LinearRegressionPrediction.new p
      = .ok ⟨p, [], (List.range p).map (fun (i : ℕ) => ((i : ℚ) + 1)),
             ((p : ℚ) + 1) / 2⟩ := by
  simp only [LinearRegressionPrediction.new, if_neg hp]

lemma lrp_next_state (s : LinearRegressionPrediction) (a : ℚ) :
    (s.next a).2 = { s with deque :=
      (if s.deque.length = s.period then s.deque.tail else s.deque)
        ++ [a] } := by
  simp only [LinearRegressionPrediction.next]
  split <;> split <;> rfl

lemma lrp_feed_fields :
    ∀ (xs : List ℚ) (s : LinearRegressionPrediction),
      (s.feed xs).period = s.period ∧ (s.feed xs).x = s.x ∧
      (s.feed xs).mean_x = s.mean_x := by
  intro xs
  induction xs with
  | nil => intro s; exact ⟨rfl, rfl, rfl⟩
  | cons x xs ih =>
    intro s
    have h := ih (s.next x).2
    simpa [LinearRegressionPrediction.feed, List.foldl_cons,
      lrp_next_state] using h

/-- Resetting any state reached from a fresh `LinearRegressionPrediction`
returns exactly the freshly constructed state. -/
lemma lrp_reset_feed {p : ℕ} {s0 : LinearRegressionPrediction}
    (hp : p ≠ 0) (h : LinearRegressionPrediction.new p = .ok s0)
    (xs : List ℚ) : (s0.feed xs).reset = s0 := by
  rw [lrp_new_eq hp] at h
  injection h with h'
  subst h'
  obtain ⟨h1, h2, h3⟩ := lrp_feed_fields xs _
  show LinearRegressionPrediction.mk _ [] _ _ = _
  rw [h1, h2, h3]

/-- Resetting any state reached from a fresh `CrossAbove` returns
exactly the freshly constructed state. -/
lemma ca_reset_feed {b : ℚ} {s0 : CrossAbove}
    (h : CrossAbove.new b = .ok s0) (xs : List ℚ) :
    (s0.feed xs).reset = s0 := by
  simp only [CrossAbove.new] at h
  injection h with h'
  subst h'
  rw [ca_fresh_feed]
  rfl

/-- Resetting any state reached from a fresh `CrossBelow` returns
exactly the freshly constructed state. -/
lemma cb_reset_feed {b : ℚ} {s0 : CrossBelow}
    (h : CrossBelow.new b = .ok s0) (xs : List ℚ) :
    (s0.feed xs).reset = s0 := by
  simp only [CrossBelow.new] at h
  injection h with h'
  subst h'
  rw [cb_fresh_feed]
  rfl

lemma ca_nextChecked_eq (s : CrossAbove) (a : ℚ) :
    s.nextChecked a = some (s.next a) := by
  rcases hshape : (if s.deque.length = 2 then s.deque.tail else s.deque)
      ++ [a] with _ | ⟨x, rest⟩
  · simp [CrossAbove.nextChecked, CrossAbove.next, hshape]
  · rcases rest with _ | ⟨y, rest2⟩
    · simp [CrossAbove.nextChecked, CrossAbove.next, hshape]
    · simp [CrossAbove.nextChecked, CrossAbove.next, hshape]
      split
      · next hc => exact absurd hc (by omega)
      · rfl

lemma cb_nextChecked_eq (s : CrossBelow) (a : ℚ) :
    s.nextChecked a = some (s.next a) := by
  rcases hshape : (if s.deque.length = 2 then s.deque.tail else s.deque)
      ++ [a] with _ | ⟨x, rest⟩
  · simp [CrossBelow.nextChecked, CrossBelow.next, hshape]
  · rcases rest with _ | ⟨y, rest2⟩
    · simp [CrossBelow.nextChecked, CrossBelow.next, hshape]
    · simp [CrossBelow.nextChecked, CrossBelow.next, hshape]
      split
      · next hc => exact absurd hc (by omega)
      · rfl

/-- C3: on any input sequence, a `CrossAbove` detector returns `false`
on the first call, and on every later call returns `true` exactly when
the previous sample is at or below the threshold and the current sample
is strictly above it. -/
theorem crossabove_semantics (b : ℚ) (s0 : CrossAbove)
    (h : CrossAbove.new b = .ok s0) (xs : List ℚ) :
    (xs ≠ [] → s0.out xs 0 = false) ∧
    (∀ t, t + 1 < xs.length →
      (s0.out xs (t + 1) = true ↔
        (xs.getD t 0 ≤ b ∧ b < xs.getD (t + 1) 0))) := by
  simp only [CrossAbove.new] at h
  injection h with h'
  subst h'
  constructor
  · intro hxs
    match xs, hxs with
    | x :: l, _ => rfl
  · intro t ht
    rw [CrossAbove.out, ca_fresh_feed]
    rcases t with _ | u
    · simp only [Nat.zero_add]
      rw [lastN_all (by rw [List.length_take]; omega),
        take_one_eq (by omega)]
      simp [CrossAbove.next]
    · rw [(by omega : u + 1 + 1 = u + 2),
        lastN_two_take (by omega : u + 2 ≤ xs.length)]
      simp [CrossAbove.next]

/-- Closed witness for C3 at threshold `10`, inputs `9, 11, 12, 9, 11`. -/
theorem crossabove_semantics_witness :
    (CrossAbove.mk 10 []).out [9, 11, 12, 9, 11] 0 = false ∧
    ((CrossAbove.mk 10 []).out [9, 11, 12, 9, 11] (0 + 1) = true ↔
      (([9, 11, 12, 9, 11] : List ℚ).getD 0 0 ≤ 10 ∧
        10 < ([9, 11, 12, 9, 11] : List ℚ).getD (0 + 1) 0)) :=
  ⟨(crossabove_semantics 10 _ rfl [9, 11, 12, 9, 11]).1 (by decide),
   (crossabove_semantics 10 _ rfl [9, 11, 12, 9, 11]).2 0 (by decide)⟩

/-- C4: on any input sequence, a `CrossBelow` detector returns `false`
on the first call, and on every later call returns `true` exactly when
the previous sample is at or above the threshold and the current sample
is strictly below it. -/
theorem crossbelow_semantics (b : ℚ) (s0 : CrossBelow)
    (h : CrossBelow.new b = .ok s0) (xs : List ℚ) :
    (xs ≠ [] → s0.out xs 0 = false) ∧
    (∀ t, t + 1 < xs.length →
      (s0.out xs (t + 1) = true ↔
        (b ≤ xs.getD t 0 ∧ xs.getD (t + 1) 0 < b))) := by
  simp only [CrossBelow.new] at h
  injection h with h'
  subst h'
  constructor
  · intro hxs
    match xs, hxs with
    | x :: l, _ => rfl
  · intro t ht
    rw [CrossBelow.out, cb_fresh_feed]
    rcases t with _ | u
    · simp only [Nat.zero_add]
      rw [lastN_all (by rw [List.length_take]; omega),
        take_one_eq (by omega)]
      simp [CrossBelow.next]
    · rw [(by omega : u + 1 + 1 = u + 2),
        lastN_two_take (by omega : u + 2 ≤ xs.length)]
      simp [CrossBelow.next]

/-- Closed witness for C4 at threshold `10`, inputs `11, 9, 8, 11, 9`. -/
theorem crossbelow_semantics_witness :
    (CrossBelow.mk 10 []).out [11, 9, 8, 11, 9] 0 = false ∧
    ((CrossBelow.mk 10 []).out [11, 9, 8, 11, 9] (0 + 1) = true ↔
      (10 ≤ ([11, 9, 8, 11, 9] : List ℚ).getD 0 0 ∧
        ([11, 9, 8, 11, 9] : List ℚ).getD (0 + 1) 0 < 10)) :=
  ⟨(crossbelow_semantics 10 _ rfl [11, 9, 8, 11, 9]).1 (by decide),
   (crossbelow_semantics 10 _ rfl [11, 9, 8, 11, 9]).2 0 (by decide)⟩

/-- C8: `CrossAbove::from_state` never fails: for every threshold and
persisted queue it succeeds with a queue holding at most the two most
recent entries (dropped from the front), and the reconstructed instance
behaves exactly like one that already held those retained samples. -/
theorem crossabove_from_state_total (b : ℚ) (dq : List ℚ) :
    ∃ s, CrossAbove.from_state b dq = .ok s ∧
      s.threshold = b ∧ s.deque = lastN 2 dq ∧ s.deque.length ≤ 2 ∧
      ∀ (xs : List ℚ) (t : ℕ),
        s.out xs t = (CrossAbove.mk b (lastN 2 dq)).out xs t := by
  have hpop : popToTwo dq = lastN 2 dq := popToTwo_eq dq
  refine ⟨CrossAbove.mk b (popToTwo dq), rfl, rfl, hpop, ?_, ?_⟩
  · rw [hpop, lastN_length]
    omega
  · intro xs t
    rw [hpop]

/-- C9: `CrossAbove::state` reads `deque[0]` and `deque[1]`
unconditionally, so with fewer than two samples received since
construction it is partial (the checked read yields `none`); with at
least two samples it returns the threshold and the two retained
samples. -/
theorem crossabove_state_requires_two (b : ℚ) (s0 : CrossAbove)
    (h : CrossAbove.new b = .ok s0) (xs : List ℚ) :
    (xs.length < 2 → (s0.feed xs).state = none) ∧
    (2 ≤ xs.length → (s0.feed xs).state
        = some (b, xs.getD (xs.length - 2) 0,
                xs.getD (xs.length - 1) 0)) := by
  simp only [CrossAbove.new] at h
  injection h with h'
  subst h'
  rw [ca_fresh_feed]
  constructor
  · intro hlt
    match xs, hlt with
    | [], _ => rfl
    | [x], _ => rfl
  · intro hge
    have h2 := @lastN_two_take xs (xs.length - 2) (by omega)
    rw [(by omega : xs.length - 2 + 2 = xs.length), List.take_length,
      (by omega : xs.length - 2 + 1 = xs.length - 1)] at h2
    rw [h2]
    rfl

/-- Closed witness for C9: one sample gives a panicking read, two give
the snapshot. -/
theorem crossabove_state_requires_two_witness :
    ((CrossAbove.mk 10 []).feed [4]).state = none ∧
    ((CrossAbove.mk 10 []).feed [4, 11]).state
      = some (10, ([4, 11] : List ℚ).getD (([4, 11] : List ℚ).length - 2) 0,
              ([4, 11] : List ℚ).getD (([4, 11] : List ℚ).length - 1) 0) :=
  ⟨(crossabove_state_requires_two 10 _ rfl [4]).1 (by decide),
   (crossabove_state_requires_two 10 _ rfl [4, 11]).2 (by decide)⟩

/-- The single pass of `LinearRegressionPrediction::next` that folds the
covariance and variance accumulators over `x.zip(slice)` computes the
corresponding index sums over the shorter list. -/
lemma zip_foldl_pair (f g : ℚ → ℚ → ℚ) :
    ∀ (ys xs : List ℚ) (a b : ℚ), ys.length ≤ xs.length →
      ((xs.zip ys).foldl
        (fun acc q => (acc.1 + f q.1 q.2, acc.2 + g q.1 q.2)) (a, b))
      = (a + ∑ i ∈ Finset.range ys.length, f (xs.getD i 0) (ys.getD i 0),
         b + ∑ i ∈ Finset.range ys.length, g (xs.getD i 0) (ys.getD i 0)) := by
  intro ys
  induction ys with
  | nil =>
    intro xs a b h
    simp
  | cons y ys ih =>
    intro xs a b h
    cases xs with
    | nil => simp at h
    | cons x xs' =>
      rw [List.zip_cons_cons, List.foldl_cons,
        ih xs' (a + f x y) (b + g x y) (by simpa using h)]
      simp only [Prod.mk.injEq, List.length_cons]
      constructor <;>
        · simp only [Finset.sum_range_succ', List.getD_cons_succ,
            List.getD_cons_zero]
          ring

lemma xlist_getD {p i : ℕ} (h : i < p) :
    ((List.range p).map (fun (j : ℕ) => ((j : ℚ) + 1))).getD i 0 = (i : ℚ) + 1 := by
  rw [List.getD_eq_getElem _ _ (by simpa using h)]
  simp

/-- One `next` call of the forecaster computes exactly the claimed
regression formula over the post-insertion window. -/
lemma lrp_next_formula {p : ℕ} (hp : 1 ≤ p) (s : LinearRegressionPrediction)
    (hper : s.period = p)
    (hx : s.x = (List.range p).map (fun (i : ℕ) => ((i : ℚ) + 1)))
    (hmx : s.mean_x = ((p : ℚ) + 1) / 2)
    (hlen : s.deque.length ≤ p) (a : ℚ) :
    (s.next a).1 = lrpSpec p
      ((if s.deque.length = s.period then s.deque.tail else s.deque)
        ++ [a]) := by
  set ys := (if s.deque.length = s.period then s.deque.tail else s.deque)
    ++ [a] with hysdef
  have hlen_ys : ys.length ≤ p := by
    rw [hysdef, List.length_append]
    by_cases hc : s.deque.length = s.period
    · rw [if_pos hc, List.length_tail]
      simp only [List.length_cons, List.length_nil]
      omega
    · rw [if_neg hc]
      simp only [List.length_cons, List.length_nil]
      omega
  have hempty : ys.isEmpty = false := by
    rw [hysdef]
    simp
  simp only [LinearRegressionPrediction.next, ← hysdef, hempty,
    Bool.false_eq_true, if_false]
  rw [zip_foldl_pair
    (fun x y => (x - s.mean_x) * (y - ys.sum / (ys.length : ℚ)))
    (fun x y => (x - s.mean_x) ^ 2) ys s.x 0 0
    (by rw [hx, List.length_map, List.length_range]; exact hlen_ys)]
  have hsum1 : ∑ i ∈ Finset.range ys.length,
      (s.x.getD i 0 - ((p : ℚ) + 1) / 2)
        * (ys.getD i 0 - ys.sum / (ys.length : ℚ))
      = ∑ i ∈ Finset.range ys.length,
        (((i : ℚ) + 1) - ((p : ℚ) + 1) / 2)
          * (ys.getD i 0 - ys.sum / (ys.length : ℚ)) :=
    Finset.sum_congr rfl (fun i hi => by
      rw [hx, xlist_getD (lt_of_lt_of_le (Finset.mem_range.mp hi) hlen_ys)])
  have hsum2 : ∑ i ∈ Finset.range ys.length,
      (s.x.getD i 0 - ((p : ℚ) + 1) / 2) ^ 2
      = ∑ i ∈ Finset.range ys.length,
        (((i : ℚ) + 1) - ((p : ℚ) + 1) / 2) ^ 2 :=
    Finset.sum_congr rfl (fun i hi => by
      rw [hx, xlist_getD (lt_of_lt_of_le (Finset.mem_range.mp hi) hlen_ys)])
  simp only [lrpSpec, hmx, hsum1, hsum2, zero_add]

/-- C2: the regression forecaster's advance returns
`slope*(n+1) + intercept` where `n` is the queue length after FIFO
insertion (capped at `period`), `mean_x = (p+1)/2` is fixed at
construction, `slope = cov_xy/var_x` when `var_x ≠ 0` and `0` otherwise,
`intercept = mean_y - slope*mean_x`, pairing the first `n` regressor
positions with the held samples in order; with `period = 3` the inputs
`1,2,3,4,5` produce `1, 2, 4, 5, 6` exactly. -/
theorem lrp_prediction
    (p : ℕ) (hp : 1 ≤ p) (s : LinearRegressionPrediction)
    (hper : s.period = p)
    (hx : s.x = (List.range p).map (fun (i : ℕ) => ((i : ℚ) + 1)))
    (hmx : s.mean_x = ((p : ℚ) + 1) / 2)
    (hlen : s.deque.length ≤ p) (a : ℚ)
    (s3 : LinearRegressionPrediction)
    (h3 : LinearRegressionPrediction.new 3 = .ok s3) :
    (s.next a).1 = lrpSpec p
      ((if s.deque.length = s.period then s.deque.tail else s.deque)
        ++ [a]) ∧
    s3.out [1, 2, 3, 4, 5] 0 = 1 ∧ s3.out [1, 2, 3, 4, 5] 1 = 2 ∧
    s3.out [1, 2, 3, 4, 5] 2 = 4 ∧ s3.out [1, 2, 3, 4, 5] 3 = 5 ∧
    s3.out [1, 2, 3, 4, 5] 4 = 6 := by
  rw [lrp_new_eq (by decide)] at h3
  injection h3 with h3'
  subst h3'
  refine ⟨lrp_next_formula hp s hper hx hmx hlen a, ?_, ?_, ?_, ?_, ?_⟩ <;>
    · simp only [LinearRegressionPrediction.out,
        LinearRegressionPrediction.feed, LinearRegressionPrediction.next]
      norm_num [List.range_succ]

/-- Closed witness for C2: a single advance of a fresh period-3
forecaster, plus the documented five-step example. -/
theorem lrp_prediction_witness :
    ((LinearRegressionPrediction.mk 3 []
        ((List.range 3).map (fun (i : ℕ) => ((i : ℚ) + 1)))
        (((3 : ℚ) + 1) / 2)).next 1).1 = lrpSpec 3 [1] ∧
    (LinearRegressionPrediction.mk 3 []
        ((List.range 3).map (fun (i : ℕ) => ((i : ℚ) + 1)))
        (((3 : ℚ) + 1) / 2)).out [1, 2, 3, 4, 5] 0 = 1 ∧
    (LinearRegressionPrediction.mk 3 []
        ((List.range 3).map (fun (i : ℕ) => ((i : ℚ) + 1)))
        (((3 : ℚ) + 1) / 2)).out [1, 2, 3, 4, 5] 1 = 2 ∧
    (LinearRegressionPrediction.mk 3 []
        ((List.range 3).map (fun (i : ℕ) => ((i : ℚ) + 1)))
        (((3 : ℚ) + 1) / 2)).out [1, 2, 3, 4, 5] 2 = 4 ∧
    (LinearRegressionPrediction.mk 3 []
        ((List.range 3).map (fun (i : ℕ) => ((i : ℚ) + 1)))
        (((3 : ℚ) + 1) / 2)).out [1, 2, 3, 4, 5] 3 = 5 ∧
    (LinearRegressionPrediction.mk 3 []
        ((List.range 3).map (fun (i : ℕ) => ((i : ℚ) + 1)))
        (((3 : ℚ) + 1) / 2)).out [1, 2, 3, 4, 5] 4 = 6 :=
  lrp_prediction 3 (by decide)
    (LinearRegressionPrediction.mk 3 []
      ((List.range 3).map (fun (i : ℕ) => ((i : ℚ) + 1)))
      (((3 : ℚ) + 1) / 2)) rfl rfl rfl (by decide) 1
    _ (lrp_new_eq (by decide))

/-- C5: constructing `HighestHighValue`, `LowestLowValue` or
`LinearRegressionPrediction` with `period = 0` returns exactly the
invalid-parameter error, and construction with any `period ≥ 1`
succeeds; no other error kind is ever returned by a constructor. -/
theorem construction_validation :
    HighestHighValue.new 0 = .error TaError.InvalidParameter ∧
    LowestLowValue.new 0 = .error TaError.InvalidParameter ∧
    LinearRegressionPrediction.new 0 = .error TaError.InvalidParameter ∧
    ∀ p, 1 ≤ p →
      (∃ s, HighestHighValue.new p = .ok s) ∧
      (∃ s, LowestLowValue.new p = .ok s) ∧
      (∃ s, LinearRegressionPrediction.new p = .ok s) := by
  refine ⟨rfl, rfl, rfl, ?_⟩
  intro p hp
  exact ⟨⟨_, hhv_new_eq hp⟩, ⟨_, llv_new_eq hp⟩,
    ⟨_, lrp_new_eq (by omega)⟩⟩

/-- Closed witness for C5: the default periods `7` and `9` construct. -/
theorem construction_validation_witness :
    (∃ s, HighestHighValue.new 7 = .ok s) ∧
    (∃ s, LowestLowValue.new 7 = .ok s) ∧
    (∃ s, LinearRegressionPrediction.new 9 = .ok s) :=
  ⟨(construction_validation.2.2.2 7 (by decide)).1,
   (construction_validation.2.2.2 7 (by decide)).2.1,
   (construction_validation.2.2.2 9 (by decide)).2.2⟩

/-- C6: for every indicator in scope, `reset` is idempotent and restores
exactly the freshly constructed state, so any subsequent input sequence
produces exactly the outputs a fresh instance with the same parameters
would produce. -/
theorem reset_restores_fresh (p : ℕ) (hp : 1 ≤ p) (b : ℚ)
    (xs ys : List ℚ) (t : ℕ)
    (sH : HighestHighValue) (hH : HighestHighValue.new p = .ok sH)
    (sL : LowestLowValue) (hL : LowestLowValue.new p = .ok sL)
    (sA : CrossAbove) (hA : CrossAbove.new b = .ok sA)
    (sB : CrossBelow) (hB : CrossBelow.new b = .ok sB)
    (sP : LinearRegressionPrediction)
    (hP : LinearRegressionPrediction.new p = .ok sP) :
    ((sH.feed xs).reset.reset = (sH.feed xs).reset ∧
     (sH.feed xs).reset = sH ∧
     (sH.feed xs).reset.out ys t = sH.out ys t) ∧
    ((sL.feed xs).reset.reset = (sL.feed xs).reset ∧
     (sL.feed xs).reset = sL ∧
     (sL.feed xs).reset.out ys t = sL.out ys t) ∧
    ((sA.feed xs).reset.reset = (sA.feed xs).reset ∧
     (sA.feed xs).reset = sA ∧
     (sA.feed xs).reset.out ys t = sA.out ys t) ∧
    ((sB.feed xs).reset.reset = (sB.feed xs).reset ∧
     (sB.feed xs).reset = sB ∧
     (sB.feed xs).reset.out ys t = sB.out ys t) ∧
    ((sP.feed xs).reset.reset = (sP.feed xs).reset ∧
     (sP.feed xs).reset = sP ∧
     (sP.feed xs).reset.out ys t = sP.out ys t) := by
  have hp0 : 0 < p := hp
  have hH1 : (sH.feed xs).reset = sH := hhv_reset_feed hp0 hH xs
  have hH0 : sH.reset = sH := hhv_reset_feed hp0 hH []
  have hL1 : (sL.feed xs).reset = sL := llv_reset_feed hp0 hL xs
  have hL0 : sL.reset = sL := llv_reset_feed hp0 hL []
  have hA1 : (sA.feed xs).reset = sA := ca_reset_feed hA xs
  have hA0 : sA.reset = sA := ca_reset_feed hA []
  have hB1 : (sB.feed xs).reset = sB := cb_reset_feed hB xs
  have hB0 : sB.reset = sB := cb_reset_feed hB []
  have hP1 : (sP.feed xs).reset = sP := lrp_reset_feed (by omega) hP xs
  have hP0 : sP.reset = sP := lrp_reset_feed (by omega) hP []
  refine ⟨⟨?_, hH1, ?_⟩, ⟨?_, hL1, ?_⟩, ⟨?_, hA1, ?_⟩, ⟨?_, hB1, ?_⟩,
    ⟨?_, hP1, ?_⟩⟩
  · rw [hH1, hH0]
  · rw [hH1]
  · rw [hL1, hL0]
  · rw [hL1]
  · rw [hA1, hA0]
  · rw [hA1]
  · rw [hB1, hB0]
  · rw [hB1]
  · rw [hP1, hP0]
  · rw [hP1]

/-- Closed witness for C6 at `p = 2`, `b = 10`, `xs = [3, 4, 5]`,
`ys = [1, 2]`, `t = 1`. -/
theorem reset_restores_fresh_witness :
    (((HighestHighValue.mk 2 0 0 (List.replicate 2 ⊥)).feed
        [3, 4, 5]).reset.reset
      = ((HighestHighValue.mk 2 0 0 (List.replicate 2 ⊥)).feed
        [3, 4, 5]).reset ∧
     ((HighestHighValue.mk 2 0 0 (List.replicate 2 ⊥)).feed [3, 4, 5]).reset
      = HighestHighValue.mk 2 0 0 (List.replicate 2 ⊥) ∧
     ((HighestHighValue.mk 2 0 0 (List.replicate 2 ⊥)).feed
        [3, 4, 5]).reset.out [1, 2] 1
      = (HighestHighValue.mk 2 0 0 (List.replicate 2 ⊥)).out [1, 2] 1) ∧
    (((LowestLowValue.mk 2 0 0 (List.replicate 2 ⊤)).feed
        [3, 4, 5]).reset.reset
      = ((LowestLowValue.mk 2 0 0 (List.replicate 2 ⊤)).feed
        [3, 4, 5]).reset ∧
     ((LowestLowValue.mk 2 0 0 (List.replicate 2 ⊤)).feed [3, 4, 5]).reset
      = LowestLowValue.mk 2 0 0 (List.replicate 2 ⊤) ∧
     ((LowestLowValue.mk 2 0 0 (List.replicate 2 ⊤)).feed
        [3, 4, 5]).reset.out [1, 2] 1
      = (LowestLowValue.mk 2 0 0 (List.replicate 2 ⊤)).out [1, 2] 1) ∧
    (((CrossAbove.mk 10 []).feed [3, 4, 5]).reset.reset
      = ((CrossAbove.mk 10 []).feed [3, 4, 5]).reset ∧
     ((CrossAbove.mk 10 []).feed [3, 4, 5]).reset = CrossAbove.mk 10 [] ∧
     ((CrossAbove.mk 10 []).feed [3, 4, 5]).reset.out [1, 2] 1
      = (CrossAbove.mk 10 []).out [1, 2] 1) ∧
    (((CrossBelow.mk 10 []).feed [3, 4, 5]).reset.reset
      = ((CrossBelow.mk 10 []).feed [3, 4, 5]).reset ∧
     ((CrossBelow.mk 10 []).feed [3, 4, 5]).reset = CrossBelow.mk 10 [] ∧
     ((CrossBelow.mk 10 []).feed [3, 4, 5]).reset.out [1, 2] 1
      = (CrossBelow.mk 10 []).out [1, 2] 1) ∧
    (((LinearRegressionPrediction.mk 2 []
        ((List.range 2).map (fun (i : ℕ) => ((i : ℚ) + 1))) (((2 : ℚ) + 1) / 2)).feed
        [3, 4, 5]).reset.reset
      = ((LinearRegressionPrediction.mk 2 []
        ((List.range 2).map (fun (i : ℕ) => ((i : ℚ) + 1))) (((2 : ℚ) + 1) / 2)).feed
        [3, 4, 5]).reset ∧
     ((LinearRegressionPrediction.mk 2 []
        ((List.range 2).map (fun (i : ℕ) => ((i : ℚ) + 1))) (((2 : ℚ) + 1) / 2)).feed
        [3, 4, 5]).reset
      = LinearRegressionPrediction.mk 2 []
          ((List.range 2).map (fun (i : ℕ) => ((i : ℚ) + 1))) (((2 : ℚ) + 1) / 2) ∧
     ((LinearRegressionPrediction.mk 2 []
        ((List.range 2).map (fun (i : ℕ) => ((i : ℚ) + 1))) (((2 : ℚ) + 1) / 2)).feed
        [3, 4, 5]).reset.out [1, 2] 1
      = (LinearRegressionPrediction.mk 2 []
          ((List.range 2).map (fun (i : ℕ) => ((i : ℚ) + 1)))
          (((2 : ℚ) + 1) / 2)).out [1, 2] 1) :=
  reset_restores_fresh 2 (by decide) 10 [3, 4, 5] [1, 2] 1
    _ rfl _ rfl _ rfl _ rfl _ (lrp_new_eq (by decide))

/-- C7: after successful construction, `next` never fails: for every
reachable extremum-tracker state the bounds-checked buffer write
succeeds, the edge detectors' bounds-checked queue reads succeed from
any state, and the forecaster's defensive empty-window branch is
unreachable — every input, including arbitrary values, flows through the
arithmetic. -/
theorem advance_never_fails (p : ℕ) (hp : 1 ≤ p)
    (sH : HighestHighValue) (hH : HighestHighValue.new p = .ok sH)
    (sL : LowestLowValue) (hL : LowestLowValue.new p = .ok sL) :
    (∀ (xs : List ℚ) (a : ℚ),
      (sH.feed xs).nextChecked a = some ((sH.feed xs).next a)) ∧
    (∀ (xs : List ℚ) (a : ℚ),
      (sL.feed xs).nextChecked a = some ((sL.feed xs).next a)) ∧
    (∀ (s : CrossAbove) (a : ℚ), s.nextChecked a = some (s.next a)) ∧
    (∀ (s : CrossBelow) (a : ℚ), s.nextChecked a = some (s.next a)) ∧
    (∀ (s : LinearRegressionPrediction) (a : ℚ),
      ((if s.deque.length = s.period then s.deque.tail else s.deque)
        ++ [a]).isEmpty = false) := by
  have hp0 : 0 < p := hp
  refine ⟨?_, ?_, ca_nextChecked_eq, cb_nextChecked_eq, ?_⟩
  · intro xs a
    have hinv : (sH.feed xs).Inv p xs := by
      simpa using hhv_inv_feed hp0 xs (hhv_inv_new hp0 hH)
    obtain ⟨hper, hlen, -, hidx, -⟩ := hinv
    rw [HighestHighValue.nextChecked,
      if_pos (by rw [hlen, hidx]; exact Nat.mod_lt _ hp0)]
  · intro xs a
    have hinv : (sL.feed xs).Inv p xs := by
      simpa using llv_inv_feed hp0 xs (llv_inv_new hp0 hL)
    obtain ⟨hper, hlen, -, hidx, -⟩ := hinv
    rw [LowestLowValue.nextChecked,
      if_pos (by rw [hlen, hidx]; exact Nat.mod_lt _ hp0)]
  · intro s a
    simp

/-- Closed witness for C7 at `p = 2` and small concrete inputs. -/
theorem advance_never_fails_witness :
    (((HighestHighValue.mk 2 0 0 (List.replicate 2 ⊥)).feed
        [1, 2, 3]).nextChecked 4
      = some (((HighestHighValue.mk 2 0 0 (List.replicate 2 ⊥)).feed
        [1, 2, 3]).next 4)) ∧
    (((LowestLowValue.mk 2 0 0 (List.replicate 2 ⊤)).feed
        [1, 2, 3]).nextChecked 4
      = some (((LowestLowValue.mk 2 0 0 (List.replicate 2 ⊤)).feed
        [1, 2, 3]).next 4)) ∧
    ((CrossAbove.mk 10 [5]).nextChecked 11
      = some ((CrossAbove.mk 10 [5]).next 11)) ∧
    ((CrossBelow.mk 10 [5]).nextChecked 11
      = some ((CrossBelow.mk 10 [5]).next 11)) := by
  exact ⟨(advance_never_fails 2 (by decide) _ rfl _ rfl).1 [1, 2, 3] 4,
    (advance_never_fails 2 (by decide) _ rfl _ rfl).2.1 [1, 2, 3] 4,
    (advance_never_fails 2 (by decide) _ rfl _ rfl).2.2.1 _ 11,
    (advance_never_fails 2 (by decide) _ rfl _ rfl).2.2.2.1 _ 11⟩

end TaRs
